import Mathlib

/-!
Verification development for the json-autotranslate core: the ICU
interpolation matcher (src/matchers/icu.ts), the marker replacement and
restoration folds, the diff and merge logic of the per-language translator
(createTranslator), the DeepL retry policy (src/services/deepl.ts) and the
case handling of supportsLanguage across provider services.

Strings are modelled as lists of characters.  JavaScript regular-expression
matching for the patterns produced by matchIcu (concatenations of escaped
literals and greedy capture groups) is modelled by an executable
backtracking matcher with longest-first group assignment, which is exactly
the semantics of an unanchored JS regex built from literals and greedy
slots.
-/

namespace JsonAutotranslate

abbrev Str := List Char

/-- Shorthand for turning a string literal into a character list. -/
def str (s : String) : Str := s.toList

/-- JS `String.prototype.replace` with a plain string pattern: replaces the
first occurrence of `pat` in `s` by `rep`; when `pat` is empty it inserts
`rep` at position 0, and when `pat` does not occur it returns `s`
unchanged, as in JavaScript. -/
def jsReplace (pat rep : Str) : Str → Str
  | [] => if pat.isPrefixOf ([] : Str) then rep else []
  | c :: t =>
    if pat.isPrefixOf (c :: t) then rep ++ (c :: t).drop pat.length
    else c :: jsReplace pat rep t

/-- One element of the regular expression assembled by `matchIcu`: either an
escaped literal chunk (matched verbatim) or a greedy capture group,
written as a match-anything slot in the source. -/
inductive RItem where
  | lit (s : Str)
  | group
deriving DecidableEq, Repr

/-- Parse tree of an ICU message as produced by the external
messageformat-parser and consumed by `matchIcu`: literal text tokens,
simple placeholders (arguments and any other non-plural token, which the
source turns into a single capture group), and plural or select tokens
carrying a list of cases, each case being a token list. -/
inductive ICUPart where
  | lit (s : Str)
  | arg
  | plural (cases : List (List ICUPart))
deriving Repr

mutual

/-- `nestedIcuMatcher` from src/matchers/icu.ts: maps each token to its
regex fragment and concatenates.  Escaping of literal chunks is the
identity in this model because `RItem.lit` is matched verbatim. -/
def buildPattern : List ICUPart → List RItem
  | [] => []
  | p :: rest => buildPart p ++ buildPattern rest

/-- `writeTokens` from src/matchers/icu.ts: a string token is a literal, a
token with a non-empty case list contributes its cases, any other token
becomes a single capture group. -/
def buildPart : ICUPart → List RItem
  | .lit s => [.lit s]
  | .arg => [.group]
  | .plural cases =>
    if cases.isEmpty then [.group] else buildCases cases

/-- Per-case fragment: an empty token list contributes nothing, otherwise
the case body is bracketed by two capture groups. -/
def buildCases : List (List ICUPart) → List RItem
  | [] => []
  | c :: rest =>
    (if c.isEmpty then [] else RItem.group :: (buildPattern c ++ [RItem.group]))
      ++ buildCases rest

end

/-- The textual post-processing step of `nestedIcuMatcher`: empty literal
chunks contribute no text, and any run of two or more consecutive
match-anything groups is collapsed into a single group. -/
def collapse : List RItem → List RItem
  | [] => []
  | .lit s :: rest => if s.isEmpty then collapse rest else .lit s :: collapse rest
  | .group :: rest =>
    match collapse rest with
    | .group :: t => .group :: t
    | r => .group :: r

/-- Greedy assignment for one capture group: try the longest capture first
(`n` characters), falling back to shorter captures until the continuation
`f` succeeds on the remaining suffix. -/
def tryLens (f : Str → Option (List Str × Str)) (s : Str) : Nat → Option (List Str × Str)
  | 0 =>
    match f s with
    | some (cs, r) => some (([] : Str) :: cs, r)
    | none => none
  | n + 1 =>
    match f (s.drop (n + 1)) with
    | some (cs, r) => some (s.take (n + 1) :: cs, r)
    | none => tryLens f s n

/-- Backtracking matcher for a pattern at the start of `s`: literals must
match verbatim, groups are greedy.  Returns the capture list and the
unconsumed suffix, mirroring how a JS regex made of literals and greedy
match-anything groups matches at a fixed position. -/
def matchItems : List RItem → Str → Option (List Str × Str)
  | [], s => some ([], s)
  | .lit l :: items, s =>
    if l.isPrefixOf s then matchItems items (s.drop l.length) else none
  | .group :: items, s => tryLens (matchItems items) s s.length

/-- Unanchored search: JS `String.prototype.match` tries successive start
positions from the left and returns the captures of the first match, or
`none` when no position matches. -/
def jsSearch (pat : List RItem) : Str → Option (List Str)
  | [] =>
    match matchItems pat [] with
    | some (cs, _) => some cs
    | none => none
  | c :: t =>
    match matchItems pat (c :: t) with
    | some (cs, _) => some cs
    | none => jsSearch pat t

/-- Modelled from the spec: the default marker of the missing
src/matchers/index.ts, a sequential index-tagged token wrapped in a
non-translatable sentinel; the exact shape is fixed by the ICU matcher
test expectations in the repository. -/
def markerFor (i : Nat) : Str := str "<span translate=\"no\">" ++ str (toString i) ++ str "</span>"

/-- `matchIcu` from src/matchers/icu.ts on an already parsed input: build
the regex from the parse tree, match it against the original string, and
turn each capture group into a replacement pair (captured text, marker). -/
def matchIcu (parts : List ICUPart) (input : Str) : List (Str × Str) :=
  match jsSearch (collapse (buildPattern parts)) input with
  | none => []
  | some cs => cs.enum.map (fun p => (p.2, markerFor p.1))

/-- Modelled from the spec: `replaceInterpolations` of the missing
src/matchers/index.ts replaces, for each recorded replacement in order,
its original substring by its marker (first occurrence, JS `replace`). -/
def cleanText (input : Str) (reps : List (Str × Str)) : Str :=
  reps.foldl (fun acc r => jsReplace r.1 r.2 acc) input

/-- Modelled from the spec: `reInsertInterpolations` of the missing
src/matchers/index.ts substitutes, for each replacement in recorded order,
the marker by its original substring (first occurrence, JS `replace`). -/
def reInsert (text : Str) (reps : List (Str × Str)) : Str :=
  reps.foldl (fun acc r => jsReplace r.2 r.1 acc) text

/-- Extraction followed by restoration for the ICU grammar: the round-trip
whose result the specification requires to be the original input. -/
def icuRoundtrip (parts : List ICUPart) (input : Str) : Str :=
  reInsert (cleanText input (matchIcu parts input)) (matchIcu parts input)

/-! ## Catalogs, the cache diff and the merge step of createTranslator -/

/-- A flattened translation catalog: an ordered list of key and value
pairs, mirroring a flattened JSON object. -/
abbrev Catalog := List (String × String)

/-- The key list of a catalog, mirroring `Object.keys`. -/
def keysOf (c : Catalog) : List String := c.map Prod.fst

/-- Property access `c[k]` on a flat object. -/
def lookupC (c : Catalog) (k : String) : Option String :=
  (c.find? (fun e => e.1 == k)).map Prod.snd

/-- JavaScript truthiness of `string | undefined`: `undefined` and the
empty string are falsy, every other string is truthy. -/
def truthyStr : Option String → Bool
  | none => false
  | some v => !(v == "")

/-- The external deep-object-diff `diff(cached, current)` restricted to
flat string maps, as used in createTranslator: a key present in `current`
whose value differs from (or is missing in) `cached` maps to its current
value, and a key of `cached` missing from `current` maps to `undefined`. -/
def objDiff (cached current : Catalog) : List (String × Option String) :=
  (current.filter (fun e => !(lookupC cached e.1 == some e.2))).map (fun e => (e.1, some e.2))
    ++ (cached.filter (fun e => lookupC current e.1 == none)).map
        (fun e => (e.1, (none : Option String)))

/-- The `cacheDiff` computation of createTranslator: empty when no cache
snapshot file exists, otherwise the keys of the diff object whose diff
value is truthy. -/
def cacheDiffOf : Option Catalog → Catalog → List String
  | none, _ => []
  | some cached, current =>
    ((objDiff cached current).filter (fun e => truthyStr e.2)).map Prod.fst

/-- The `stringsToTranslate` computation of createTranslator: source keys
that are missing from the existing target file or appear in the cache
diff, paired with the source value for key-based files and with the key
itself for natural files. -/
def stringsToTranslate (sourceContent : Catalog) (keyBased : Bool)
    (existingKeys : List String) (cacheDiff : List String) : List (String × String) :=
  ((keysOf sourceContent).filter
      (fun k => !(existingKeys.contains k) || cacheDiff.contains k)).map
    (fun k => (k, if keyBased then (lookupC sourceContent k).getD "" else k))

/-- The `unusedStrings` computation: existing target keys that no longer
occur among the source keys. -/
def unusedStringsOf (existingKeys templateStrings : List String) : List String :=
  existingKeys.filter (fun k => !(templateStrings.contains k))

/-- Lodash `omit`: drop the entries whose key is listed in `ks`. -/
def omitKeys (c : Catalog) (ks : List String) : Catalog :=
  c.filter (fun e => !(ks.contains e.1))

/-- JavaScript object spread `{...a, ...b}`: the keys of `a` in order with
values overridden by `b` where present, followed by the keys of `b` that
are not in `a`. -/
def spreadMerge (a b : Catalog) : Catalog :=
  a.map (fun e => (e.1, (lookupC b e.1).getD e.2))
    ++ b.filter (fun e => !((keysOf a).contains e.1))

/-- The inputs of one createTranslator invocation for one source file:
the flattened source content, the file type, the optionally present
destination file content, the optionally present cache snapshot, the
delete-unused-strings flag, and the provider viewed as an oracle mapping a
key and source value to a translated value. -/
structure TranslatorArgs where
  sourceContent : Catalog
  keyBased : Bool
  destination : Option Catalog
  cached : Option Catalog
  deleteUnused : Bool
  tr : String → String → String

/-- `existingTranslations`: the destination content or an empty object. -/
def existingContent (a : TranslatorArgs) : Catalog := a.destination.getD []

/-- `existingKeys`: the keys of the destination file when present. -/
def existingKeysA (a : TranslatorArgs) : List String := keysOf (existingContent a)

/-- The work set of translation units submitted to the provider. -/
def workUnits (a : TranslatorArgs) : List (String × String) :=
  stringsToTranslate a.sourceContent a.keyBased (existingKeysA a)
    (cacheDiffOf a.cached a.sourceContent)

/-- `newKeys`: provider results keyed by translation unit key; every
service returns one result per submitted unit carrying the unit key. -/
def translatedNewKeys (a : TranslatorArgs) : Catalog :=
  (workUnits a).map (fun u => (u.1, a.tr u.1 u.2))

/-- The unused target keys of this run. -/
def unusedA (a : TranslatorArgs) : List String :=
  unusedStringsOf (existingKeysA a) (keysOf a.sourceContent)

/-- `translatedFile`: prune the unused keys when the delete policy is on,
then merge the freshly translated values over the remainder. -/
def mergedFile (a : TranslatorArgs) : Catalog :=
  spreadMerge (omitKeys (existingContent a) (if a.deleteUnused then unusedA a else []))
    (translatedNewKeys a)

/-! ## The persist step -/

/-- Content written to the target language file in the working directory;
skipped entirely on a dry run. -/
def targetDirWrite (a : TranslatorArgs) (dryRun : Bool) : Option Catalog :=
  if dryRun then none else some (mergedFile a)

/-- Content written by createTranslator to the cache directory under the
target language; skipped entirely on a dry run. -/
def targetCacheWrite (a : TranslatorArgs) (dryRun : Bool) : Option Catalog :=
  if dryRun then none else some (mergedFile a)

/-- Content placed under the source language in the cache directory by the
end-of-run directory copy in `translate`; skipped on a dry run. -/
def endRunSourceCacheWrite (dryRun : Bool) (sourceContent : Catalog) : Option Catalog :=
  if dryRun then none else some sourceContent

/-! ## DeepL batch retry policy -/

/-- Outcome of one HTTP call to the DeepL translate endpoint. -/
inductive DLResponse where
  | ok (texts : List String)
  | err (status : Nat) (body : String)
deriving DecidableEq

/-- `DeepL.runTranslation`: submit the batch; on a non-ok response retry
the same batch when the status is 429 and tries remain, otherwise raise an
error carrying the status and response body.  The call sequence is driven
by an oracle giving the response of each attempt; the function returns the
list of submitted batches together with the final outcome. -/
def runTranslation (strings : List (String × String)) (responses : Nat → DLResponse)
    (attempt triesLeft : Nat) :
    List (List (String × String)) × Except (Nat × String) (List String) :=
  match responses attempt with
  | .ok texts => ([strings], Except.ok texts)
  | .err s b =>
    if s = 429 then
      match triesLeft with
      | 0 => ([strings], Except.error (s, b))
      | t + 1 =>
        let r := runTranslation strings responses (attempt + 1) t
        (strings :: r.1, r.2)
    else ([strings], Except.error (s, b))
termination_by triesLeft

/-! ## supportsLanguage across services -/

/-- ASCII uppercase to lowercase pairs. -/
def lowerPairs : List (Char × Char) :=
  [('A', 'a'), ('B', 'b'), ('C', 'c'), ('D', 'd'), ('E', 'e'), ('F', 'f'),
   ('G', 'g'), ('H', 'h'), ('I', 'i'), ('J', 'j'), ('K', 'k'), ('L', 'l'),
   ('M', 'm'), ('N', 'n'), ('O', 'o'), ('P', 'p'), ('Q', 'q'), ('R', 'r'),
   ('S', 's'), ('T', 't'), ('U', 'u'), ('V', 'v'), ('W', 'w'), ('X', 'x'),
   ('Y', 'y'), ('Z', 'z')]

/-- Lowercase one character; language codes are ASCII. -/
def toLowerChar (c : Char) : Char :=
  ((lowerPairs.find? (fun p => p.1 == c)).map Prod.snd).getD c

/-- JS `toLowerCase` on ASCII language codes. -/
def toLowerStr (s : String) : String := String.mk (s.data.map toLowerChar)

/-- `DeepL.supportsLanguage`: membership of the lowercased code in the
supported set fetched at initialization (already lowercased there, though
the proof does not rely on that). -/
def deeplSupportsLanguage (supported : List String) (language : String) : Bool :=
  supported.contains (toLowerStr language)

/-- `GoogleTranslate.supportsLanguage`: membership of the lowercased code
in the list fetched at initialization. -/
def googleSupportsLanguage (supported : List String) (language : String) : Bool :=
  supported.contains (toLowerStr language)

/-- The keys of the literal supported language map of AmazonTranslate. -/
def amazonSupportedLanguages : List String :=
  ["af", "sq", "am", "ar", "hy", "az", "bn", "bs", "bg", "ca", "zh", "zh-tw",
   "hr", "cs", "da", "fa-af", "nl", "en", "et", "fa", "tl", "fi", "fr",
   "fr-ca", "ka", "de", "el", "gu", "ht", "ha", "he", "hi", "hu", "is", "id",
   "ga", "it", "ja", "kn", "kk", "ko", "lv", "lt", "mk", "ms", "ml", "mt",
   "mr", "mn", "no", "ps", "pl", "pt", "pt-pt", "pa", "ro", "ru", "sr", "si",
   "sk", "sl", "so", "es", "es-mx", "sw", "sv", "ta", "te", "th", "tr", "uk",
   "ur", "uz", "vi", "cy"]

/-- `AmazonTranslate.supportsLanguage`: membership of the lowercased code
among the keys of the literal language map. -/
def amazonSupportsLanguage (language : String) : Bool :=
  amazonSupportedLanguages.contains (toLowerStr language)

/-- `OpenAITranslator.supportsLanguage`: constantly true. -/
def openaiSupportsLanguage (_language : String) : Bool := true

/-! ## Concrete instances used by witnesses and counterexamples -/

/-- A run with the delete policy on: target key `old` is gone from the
source, source key `a` is new. -/
def mergeArgsEx : TranslatorArgs :=
  { sourceContent := [("a", "hello")], keyBased := true,
    destination := some [("old", "x")], cached := none,
    deleteUnused := true, tr := fun _ v => v ++ "!" }

/-- The same run with the delete policy off. -/
def mergeArgsEx2 : TranslatorArgs :=
  { sourceContent := [("a", "hello")], keyBased := true,
    destination := some [("old", "x")], cached := none,
    deleteUnused := false, tr := fun _ v => v ++ "!" }

/-- A fresh translation of `greet` into a different target value. -/
def persistArgsEx : TranslatorArgs :=
  { sourceContent := [("greet", "hello")], keyBased := true,
    destination := none, cached := none,
    deleteUnused := false, tr := fun _ _ => "HOLA" }

/-- Parse tree of the ICU input "{a}P{b}Q{uPnQm}Z": three arguments
separated by the literals P, Q and Z. -/
def icuBugParts : List ICUPart :=
  [.arg, .lit (str "P"), .arg, .lit (str "Q"), .arg, .lit (str "Z")]

/-- The ICU input "{a}P{b}Q{uPnQm}Z" itself. -/
def icuBugInput : Str := str "\x7ba\x7dP\x7bb\x7dQ\x7buPnQm\x7dZ"

/-- Parse tree of the plural input of the ICU matcher test suite. -/
def icuPluralParts : List ICUPart :=
  [.arg, .lit (str " "),
   .plural [[.lit (str "one person")], [.lit (str "two people")],
            [.lit (str "many people")]]]

/-- The plural input of the ICU matcher test suite:
"{count} {count, plural, =1 {one person} =2 {two people} other {many people}}". -/
def icuPluralInput : Str :=
  str "\x7bcount\x7d \x7bcount, plural, =1 \x7bone person\x7d =2 \x7btwo people\x7d other \x7bmany people\x7d\x7d"

/-- DeepL oracle: two rate-limit responses, then success. -/
def respEx : Nat → DLResponse :=
  fun i => if i < 2 then .err 429 "rate limited" else .ok ["hallo"]

/-- DeepL oracle: an immediate server error. -/
def respEx2 : Nat → DLResponse := fun _ => .err 500 "server error"

/-- DeepL oracle: rate limited on every attempt. -/
def respEx3 : Nat → DLResponse := fun _ => .err 429 "rate limited"

/-! ## Lemmas about the matcher -/

theorem isPrefixOf_self_eq (l : Str) : l.isPrefixOf l = true := by
  induction l with
  | nil => rfl
  | cons c t ih => simp [List.isPrefixOf, ih]

theorem contains_true_iff {l : List String} {k : String} : l.contains k = true ↔ k ∈ l :=
  List.elem_iff

theorem lookupC_cons (e : String × String) (t : Catalog) (k : String) :
    lookupC (e :: t) k = if e.1 == k then some e.2 else lookupC t k := by
  cases h : e.1 == k <;> simp [lookupC, List.find?, h]

theorem mem_of_lookupC {c : Catalog} {k v : String} (h : lookupC c k = some v) :
    (k, v) ∈ c := by
  induction c with
  | nil => simp [lookupC] at h
  | cons e t ih =>
    rw [lookupC_cons] at h
    by_cases he : (e.1 == k) = true
    · rw [if_pos he] at h
      have h1 : e.1 = k := by simpa using he
      have h2 : e.2 = v := by simpa using h
      have hkv : (k, v) = e := by
        cases e
        simp_all
      rw [hkv]
      exact List.mem_cons_self _ _
    · rw [if_neg he] at h
      exact List.mem_cons_of_mem _ (ih h)

theorem lookupC_of_mem {c : Catalog} (h : (keysOf c).Nodup) {p : String × String}
    (hp : p ∈ c) : lookupC c p.1 = some p.2 := by
  induction c with
  | nil => cases hp
  | cons e t ih =>
    have hnd : e.1 ∉ keysOf t ∧ (keysOf t).Nodup := by
      simpa [keysOf] using h
    rw [lookupC_cons]
    rcases List.mem_cons.1 hp with rfl | hmem
    · simp
    · have hne : (e.1 == p.1) = false := by
        have : e.1 ≠ p.1 := by
          intro hcontra
          exact hnd.1 (hcontra ▸ List.mem_map.2 ⟨p, hmem, rfl⟩)
        simpa using this
      rw [if_neg (by simp [hne])]
      exact ih hnd.2 hmem

theorem mem_cacheDiff {cached current : Catalog} (h : (keysOf current).Nodup)
    (k : String) :
    k ∈ cacheDiffOf (some cached) current ↔
      ∃ v, lookupC current k = some v ∧ v ≠ "" ∧ lookupC cached k ≠ some v := by
  unfold cacheDiffOf objDiff
  constructor
  · intro hk
    rcases List.mem_map.1 hk with ⟨e, he, hefst⟩
    rcases List.mem_filter.1 he with ⟨hmem, htr⟩
    rcases List.mem_append.1 hmem with h1 | h2
    · rcases List.mem_map.1 h1 with ⟨q, hq, hqe⟩
      rcases List.mem_filter.1 hq with ⟨hqcur, hqdiff⟩
      refine ⟨q.2, ?_, ?_, ?_⟩
      · rw [← hefst, ← hqe]
        exact lookupC_of_mem h hqcur
      · rw [← hqe] at htr
        simpa [truthyStr] using htr
      · rw [← hefst, ← hqe]
        simpa using hqdiff
    · rcases List.mem_map.1 h2 with ⟨q, _, hqe⟩
      rw [← hqe] at htr
      simp [truthyStr] at htr
  · rintro ⟨v, hv, hne, hcache⟩
    have hmem : (k, v) ∈ current := mem_of_lookupC hv
    apply List.mem_map.2
    refine ⟨(k, some v), ?_, rfl⟩
    apply List.mem_filter.2
    refine ⟨?_, by simp [truthyStr, hne]⟩
    apply List.mem_append.2
    left
    apply List.mem_map.2
    exact ⟨(k, v), List.mem_filter.2 ⟨hmem, by simpa using hcache⟩, rfl⟩

theorem cacheDiff_subset (cached : Option Catalog) (current : Catalog) (k : String)
    (hk : k ∈ cacheDiffOf cached current) : k ∈ keysOf current := by
  cases cached with
  | none => simp [cacheDiffOf] at hk
  | some c =>
    unfold cacheDiffOf objDiff at hk
    rcases List.mem_map.1 hk with ⟨e, he, hefst⟩
    rcases List.mem_filter.1 he with ⟨hmem, htr⟩
    rcases List.mem_append.1 hmem with h1 | h2
    · rcases List.mem_map.1 h1 with ⟨q, hq, hqe⟩
      rcases List.mem_filter.1 hq with ⟨hqcur, _⟩
      rw [← hefst, ← hqe]
      exact List.mem_map.2 ⟨q, hqcur, rfl⟩
    · rcases List.mem_map.1 h2 with ⟨q, _, hqe⟩
      rw [← hqe] at htr
      simp [truthyStr] at htr

/-- C3 counterexample: with cached snapshot a maps to 1 and current source a
maps to the empty string, the value of a differs from the cache, yet the
computed change set omits a because the truthiness filter drops entries
whose current value is falsy; and with no cached snapshot the computed
change set is empty rather than containing every key. -/
theorem cache_diff_claim_false :
    lookupC [("a", "1")] "a" = some "1"
  ∧ lookupC [("a", "")] "a" = some ""
  ∧ ("a" ∉ cacheDiffOf (some [("a", "1")]) [("a", "")])
  ∧ ("a" ∉ cacheDiffOf none [("a", "1")]) := by
  refine ⟨by decide, by decide, by decide, by decide⟩

/-- C3 (amended): with a cached snapshot, the changed-key set contains
exactly the keys present in the current catalog with a value that is both
non-empty and different from their cached value (keys absent from the
cache count as different); keys whose current value is empty are omitted.
With no cached snapshot the diff itself is empty, first-run translation of
every key being produced by the union with the target-absent keys instead.
The spec example still holds: cached a=1,b=2 against current a=1,b=3,c=4
yields exactly b and c. -/
theorem cache_diff_changed_keys (cached current : Catalog)
    (h : (keysOf current).Nodup) (k : String) :
    (k ∈ cacheDiffOf (some cached) current ↔
      ∃ v, lookupC current k = some v ∧ v ≠ "" ∧ lookupC cached k ≠ some v)
  ∧ cacheDiffOf none current = [] :=
  ⟨mem_cacheDiff h k, rfl⟩

/-- Witness for C3 at the spec example catalogs. -/
theorem cache_diff_changed_keys_witness :
    ("b" ∈ cacheDiffOf (some [("a", "1"), ("b", "2")]) [("a", "1"), ("b", "3"), ("c", "4")] ↔
      ∃ v, lookupC [("a", "1"), ("b", "3"), ("c", "4")] "b" = some v ∧ v ≠ ""
        ∧ lookupC [("a", "1"), ("b", "2")] "b" ≠ some v) :=
  (cache_diff_changed_keys [("a", "1"), ("b", "2")] [("a", "1"), ("b", "3"), ("c", "4")]
    (by decide) "b").1

/-- The spec example evaluates to exactly the keys b and c, never a. -/
example :
    cacheDiffOf (some [("a", "1"), ("b", "2")]) [("a", "1"), ("b", "3"), ("c", "4")]
      = ["b", "c"] := by decide

/-- C9: the truthiness filter on the diff object drops every key whose
current source value is the empty string, and every key that was removed
from the source (whose diff value is undefined), so neither kind of key is
ever part of the changed-key set. -/
theorem cache_diff_falsy_filter (cached current : Catalog)
    (h : (keysOf current).Nodup) (k : String)
    (hk : lookupC current k = some "" ∨ lookupC current k = none) :
    k ∉ cacheDiffOf (some cached) current := by
  intro hmem
  rcases (mem_cacheDiff h k).1 hmem with ⟨v, hv, hne, _⟩
  rcases hk with h0 | h0
  · rw [h0] at hv
    exact hne (Option.some.inj hv).symm
  · rw [h0] at hv
    cases hv

/-- Witness for C9: a changed to the empty string, b removed entirely. -/
theorem cache_diff_falsy_filter_witness :
    ("a" ∉ cacheDiffOf (some [("a", "1"), ("b", "2")]) [("a", "")])
  ∧ ("b" ∉ cacheDiffOf (some [("a", "1"), ("b", "2")]) [("a", "")]) :=
  ⟨cache_diff_falsy_filter [("a", "1"), ("b", "2")] [("a", "")] (by decide) "a"
     (Or.inl (by decide)),
   cache_diff_falsy_filter [("a", "1"), ("b", "2")] [("a", "")] (by decide) "b"
     (Or.inr (by decide))⟩

theorem map_fst_map_pair {α β : Type} (g : α → β) (l : List α) :
    (l.map (fun k => (k, g k))).map Prod.fst = l := by
  induction l with
  | nil => rfl
  | cons a t ih => simp [ih]

theorem keysOf_stringsToTranslate (source : Catalog) (keyBased : Bool)
    (existingKeys cacheDiff : List String) :
    keysOf (stringsToTranslate source keyBased existingKeys cacheDiff)
      = (keysOf source).filter
          (fun k => !(existingKeys.contains k) || cacheDiff.contains k) := by
  unfold stringsToTranslate keysOf
  exact map_fst_map_pair _ _

theorem mem_keysOf_stringsToTranslate (source : Catalog) (keyBased : Bool)
    (existingKeys cacheDiff : List String) (k : String) :
    k ∈ keysOf (stringsToTranslate source keyBased existingKeys cacheDiff) ↔
      k ∈ keysOf source ∧ (k ∉ existingKeys ∨ k ∈ cacheDiff) := by
  rw [keysOf_stringsToTranslate]
  simp [List.mem_filter]

/-- C4: the key set of the units submitted to the provider is exactly the
union of the source keys missing from the existing target catalog and the
keys of the cache diff, and a source key that is already translated and
whose value agrees with the cached snapshot is never submitted. -/
theorem work_set_union (source : Catalog) (keyBased : Bool)
    (existingKeys : List String) (cached : Option Catalog)
    (h : (keysOf source).Nodup) (k : String) :
    (k ∈ keysOf (stringsToTranslate source keyBased existingKeys
        (cacheDiffOf cached source)) ↔
      ((k ∈ keysOf source ∧ k ∉ existingKeys) ∨ k ∈ cacheDiffOf cached source))
  ∧ (∀ cachedCat, cached = some cachedCat → k ∈ existingKeys →
      lookupC cachedCat k = lookupC source k →
      k ∉ keysOf (stringsToTranslate source keyBased existingKeys
        (cacheDiffOf cached source))) := by
  have hsub := cacheDiff_subset cached source k
  have hchar := mem_keysOf_stringsToTranslate source keyBased existingKeys
    (cacheDiffOf cached source) k
  constructor
  · rw [hchar]
    constructor
    · rintro ⟨hs, hno | hd⟩
      · exact Or.inl ⟨hs, hno⟩
      · exact Or.inr hd
    · rintro (⟨hs, hno⟩ | hd)
      · exact ⟨hs, Or.inl hno⟩
      · exact ⟨hsub hd, Or.inr hd⟩
  · rintro cachedCat rfl hex heq hmem
    rcases hchar.1 hmem with ⟨hs, hno | hd⟩
    · exact hno hex
    · rcases (mem_cacheDiff h k).1 hd with ⟨v, hv, _, hc⟩
      exact hc (heq.trans hv)

/-- Witness for C4: key c is new, key b changed, key a is translated and
unchanged and must not be submitted again. -/
theorem work_set_union_witness :
    ("c" ∈ keysOf (stringsToTranslate [("a", "1"), ("b", "2"), ("c", "3")] true
        ["a", "b"] (cacheDiffOf (some [("a", "1"), ("b", "9")])
          [("a", "1"), ("b", "2"), ("c", "3")])) ↔
      (("c" ∈ keysOf [("a", "1"), ("b", "2"), ("c", "3")] ∧ "c" ∉ ["a", "b"])
        ∨ "c" ∈ cacheDiffOf (some [("a", "1"), ("b", "9")])
            [("a", "1"), ("b", "2"), ("c", "3")]))
  ∧ "a" ∉ keysOf (stringsToTranslate [("a", "1"), ("b", "2"), ("c", "3")] true
      ["a", "b"] (cacheDiffOf (some [("a", "1"), ("b", "9")])
        [("a", "1"), ("b", "2"), ("c", "3")])) :=
  ⟨(work_set_union [("a", "1"), ("b", "2"), ("c", "3")] true ["a", "b"]
      (some [("a", "1"), ("b", "9")]) (by decide) "c").1,
   (work_set_union [("a", "1"), ("b", "2"), ("c", "3")] true ["a", "b"]
      (some [("a", "1"), ("b", "9")]) (by decide) "a").2
     [("a", "1"), ("b", "9")] rfl (by decide) (by decide)⟩

/-- The greedy matcher reproduces the replacement list asserted by the
ICU matcher test for the plural example, marker for marker. -/
example :
    matchIcu icuPluralParts icuPluralInput =
      [(str "\x7bcount\x7d \x7bcount, plural, =1", markerFor 0),
       (str "\x7b", markerFor 1),
       (str "\x7d =2 \x7b", markerFor 2),
       (str "\x7d other \x7b", markerFor 3),
       (str "\x7d\x7d", markerFor 4)] := by decide

/-- The plural example of the test suite does round-trip. -/
example : icuRoundtrip icuPluralParts icuPluralInput = icuPluralInput := by decide

theorem map_fst_override (b a : Catalog) :
    (a.map (fun e => (e.1, (lookupC b e.1).getD e.2))).map Prod.fst
      = a.map Prod.fst := by
  induction a with
  | nil => rfl
  | cons e t ih => simp [ih]

theorem mem_keysOf_spreadMerge {a b : Catalog} {k : String} :
    k ∈ keysOf (spreadMerge a b) ↔ k ∈ keysOf a ∨ k ∈ keysOf b := by
  unfold spreadMerge keysOf
  rw [List.map_append, map_fst_override]
  constructor
  · intro h
    rcases List.mem_append.1 h with h1 | h2
    · exact Or.inl h1
    · rcases List.mem_map.1 h2 with ⟨e, hef, hek⟩
      rcases List.mem_filter.1 hef with ⟨heb, _⟩
      exact Or.inr (List.mem_map.2 ⟨e, heb, hek⟩)
  · intro h
    apply List.mem_append.2
    rcases h with h1 | h2
    · exact Or.inl h1
    · by_cases hA : k ∈ List.map Prod.fst a
      · exact Or.inl hA
      · rcases List.mem_map.1 h2 with ⟨e, heb, hek⟩
        refine Or.inr (List.mem_map.2 ⟨e, List.mem_filter.2 ⟨heb, ?_⟩, hek⟩)
        cases hcon : (List.map Prod.fst a).contains e.1 with
        | false => simp [keysOf, hcon]
        | true => exact absurd (hek ▸ contains_true_iff.1 hcon) hA

/-- C1 (code_bug): the round-trip law fails on the code.  For the plain ICU
input "{a}P{b}Q{uPnQm}Z" the greedy regex derived from the parse tree
captures "{a}P{b}Q{u", "n" and "m}"; re-replacing the one-character capture
"n" hits the letter n inside the first marker (span), corrupting it, so
restoration returns a string that still contains marker text instead of the
original.  The adjacent-placeholder input "{a}{b}", whose two gaps collapse
into one capture group, does round-trip, so the collapse edge case singled
out by the claim is not the failing one. -/
theorem icu_roundtrip_violation :
    icuRoundtrip icuBugParts icuBugInput ≠ icuBugInput
  ∧ icuRoundtrip icuBugParts icuBugInput = str "<span translate=\"no\">0</span>PnQm\x7dZ"
  ∧ icuRoundtrip [ICUPart.arg, ICUPart.arg] (str "\x7ba\x7d\x7bb\x7d")
      = str "\x7ba\x7d\x7bb\x7d" :=
  ⟨by decide, by decide, by decide⟩

/-- C2: when the regular expression built from the parse tree has no match
anywhere in the input, matchIcu returns an empty replacement list and the
cleaned text is the unmodified input, so a string the matcher cannot align
is sent to translation unchanged instead of raising an error. -/
theorem icu_match_failure_fail_open (parts : List ICUPart) (input : Str)
    (h : jsSearch (collapse (buildPattern parts)) input = none) :
    matchIcu parts input = [] ∧ cleanText input (matchIcu parts input) = input := by
  have hmain : matchIcu parts input = [] := by simp [matchIcu, h]
  exact ⟨hmain, by rw [hmain]; rfl⟩

/-- Witness for C2 at a concrete mismatching pattern and input. -/
theorem icu_match_failure_fail_open_witness :
    jsSearch (collapse (buildPattern [ICUPart.lit (str "ab")])) (str "ba") = none
  ∧ matchIcu [ICUPart.lit (str "ab")] (str "ba") = []
  ∧ cleanText (str "ba") (matchIcu [ICUPart.lit (str "ab")] (str "ba")) = str "ba" :=
  ⟨by decide,
   (icu_match_failure_fail_open [ICUPart.lit (str "ab")] (str "ba") (by decide)).1,
   (icu_match_failure_fail_open [ICUPart.lit (str "ab")] (str "ba") (by decide)).2⟩

/-- C8: an input whose parse tree is a single literal equal to the whole
string, which is what the parser yields for a string with no placeholders,
produces an empty replacement list and an unchanged marked text. -/
theorem no_placeholder_noop (s : Str) :
    matchIcu [ICUPart.lit s] s = [] ∧ cleanText s (matchIcu [ICUPart.lit s] s) = s := by
  have hmain : matchIcu [ICUPart.lit s] s = [] := by
    cases s with
    | nil => rfl
    | cons c t =>
      have hp : (c :: t).isPrefixOf (c :: t) = true := isPrefixOf_self_eq _
      simp [matchIcu, buildPattern, buildPart, collapse, jsSearch, matchItems, hp]
  exact ⟨hmain, by rw [hmain]; rfl⟩

/-! ## Merge and persist theorems -/

theorem mem_keysOf_omit {c : Catalog} {ks : List String} {k : String} :
    k ∈ keysOf (omitKeys c ks) ↔ k ∈ keysOf c ∧ k ∉ ks := by
  unfold omitKeys keysOf
  constructor
  · intro h
    rcases List.mem_map.1 h with ⟨e, hef, hek⟩
    rcases List.mem_filter.1 hef with ⟨hec, hno⟩
    refine ⟨List.mem_map.2 ⟨e, hec, hek⟩, ?_⟩
    intro hk
    rw [← hek] at hk
    simp at hno
    exact hno hk
  · rintro ⟨h1, h2⟩
    rcases List.mem_map.1 h1 with ⟨e, hec, hek⟩
    refine List.mem_map.2 ⟨e, List.mem_filter.2 ⟨hec, ?_⟩, hek⟩
    cases hcon : ks.contains e.1 with
    | false => rfl
    | true => exact absurd (hek ▸ contains_true_iff.1 hcon) h2

theorem omitKeys_nil (c : Catalog) : omitKeys c [] = c := by
  unfold omitKeys
  have h : ∀ e : String × String, (!(([] : List String).contains e.1)) = true :=
    fun e => rfl
  simp

theorem map_fst_map_pair_dep (tr : String → String → String)
    (l : List (String × String)) :
    (l.map (fun u => (u.1, tr u.1 u.2))).map Prod.fst = l.map Prod.fst := by
  induction l with
  | nil => rfl
  | cons e t ih => simp [ih]

theorem keysOf_translatedNewKeys (a : TranslatorArgs) :
    keysOf (translatedNewKeys a) = keysOf (workUnits a) := by
  unfold translatedNewKeys keysOf
  exact map_fst_map_pair_dep a.tr (workUnits a)

theorem mem_unusedA {a : TranslatorArgs} {k : String} :
    k ∈ unusedA a ↔ k ∈ existingKeysA a ∧ k ∉ keysOf a.sourceContent := by
  unfold unusedA unusedStringsOf
  constructor
  · intro h
    rcases List.mem_filter.1 h with ⟨h1, h2⟩
    refine ⟨h1, fun hk => ?_⟩
    simp at h2
    exact h2 hk
  · rintro ⟨h1, h2⟩
    refine List.mem_filter.2 ⟨h1, ?_⟩
    cases hcon : (keysOf a.sourceContent).contains k with
    | false => rfl
    | true => exact absurd (contains_true_iff.1 hcon) h2

theorem workUnits_subset_source (a : TranslatorArgs) (k : String)
    (hk : k ∈ keysOf (workUnits a)) : k ∈ keysOf a.sourceContent := by
  unfold workUnits at hk
  exact ((mem_keysOf_stringsToTranslate _ _ _ _ k).1 hk).1

/-- C5: with the delete policy on, a target key gone from the source is
pruned and, since all freshly translated keys are source keys, it is not
reintroduced; pruning happens before insertion, so every freshly translated
key ends up in the merged output; and with the delete policy off, every
existing target key survives the merge. -/
theorem merge_prune_insert (a : TranslatorArgs) (k : String) :
    (a.deleteUnused = true → k ∈ existingKeysA a → k ∉ keysOf a.sourceContent →
      k ∉ keysOf (mergedFile a))
  ∧ (k ∈ keysOf (translatedNewKeys a) → k ∈ keysOf (mergedFile a))
  ∧ (a.deleteUnused = false → k ∈ existingKeysA a → k ∈ keysOf (mergedFile a)) := by
  refine ⟨?_, ?_, ?_⟩
  · intro hd hex hsrc hmem
    rw [mergedFile, hd, if_pos rfl] at hmem
    rcases mem_keysOf_spreadMerge.1 hmem with h1 | h2
    · exact (mem_keysOf_omit.1 h1).2 (mem_unusedA.2 ⟨hex, hsrc⟩)
    · rw [keysOf_translatedNewKeys] at h2
      exact hsrc (workUnits_subset_source a k h2)
  · intro h
    rw [mergedFile]
    exact mem_keysOf_spreadMerge.2 (Or.inr h)
  · intro hd hex
    rw [mergedFile, hd, if_neg (by simp), omitKeys_nil]
    exact mem_keysOf_spreadMerge.2 (Or.inl hex)

/-- Witness for C5: with the delete policy on, key old is pruned and the
fresh key a is inserted; with it off, old survives. -/
theorem merge_prune_insert_witness :
    ("old" ∉ keysOf (mergedFile mergeArgsEx))
  ∧ ("a" ∈ keysOf (mergedFile mergeArgsEx))
  ∧ ("old" ∈ keysOf (mergedFile mergeArgsEx2)) :=
  ⟨(merge_prune_insert mergeArgsEx "old").1 rfl (by decide) (by decide),
   (merge_prune_insert mergeArgsEx "a").2.1 (by decide),
   (merge_prune_insert mergeArgsEx2 "old").2.2 rfl (by decide)⟩

/-- C7 counterexample: createTranslator writes, under the target language in
the cache directory, the merged target catalog and not a snapshot of the
source catalog: translating greet from hello to HOLA stores HOLA in the
per-language cache write, which differs from the source catalog. -/
theorem language_cache_write_not_source :
    targetCacheWrite persistArgsEx false = some [("greet", "HOLA")]
  ∧ persistArgsEx.sourceContent = [("greet", "hello")]
  ∧ targetCacheWrite persistArgsEx false ≠ some persistArgsEx.sourceContent :=
  ⟨by decide, by decide, by decide⟩

/-- C7 (amended): on a non-dry run, the per-language persist step writes the
same merged target catalog both to the target file and to the cache
directory under the target language; the source catalog reaches the cache
only through the end-of-run directory copy under the source language; on a
dry run none of these writes happen. -/
theorem language_cache_write_behavior (a : TranslatorArgs) (src : Catalog) :
    targetCacheWrite a false = targetDirWrite a false
  ∧ targetCacheWrite a false = some (mergedFile a)
  ∧ endRunSourceCacheWrite false src = some src
  ∧ targetCacheWrite a true = none
  ∧ targetDirWrite a true = none
  ∧ endRunSourceCacheWrite true src = none :=
  ⟨rfl, rfl, rfl, rfl, rfl, rfl⟩

/-! ## DeepL retry theorems -/

theorem runTranslation_fst_zero (strings : List (String × String))
    (responses : Nat → DLResponse) (attempt : Nat) :
    (runTranslation strings responses attempt 0).1 = [strings] := by
  unfold runTranslation
  cases responses attempt with
  | ok texts => rfl
  | err s b => by_cases hs : s = 429 <;> simp [hs]

theorem runTranslation_batches (strings : List (String × String))
    (responses : Nat → DLResponse) :
    ∀ t attempt bs, bs ∈ (runTranslation strings responses attempt t).1 →
      bs = strings := by
  intro t
  induction t with
  | zero =>
    intro attempt bs hbs
    rw [runTranslation_fst_zero] at hbs
    simpa using hbs
  | succ t ih =>
    intro attempt bs hbs
    unfold runTranslation at hbs
    cases hr : responses attempt with
    | ok texts =>
      rw [hr] at hbs
      simpa using hbs
    | err s b =>
      rw [hr] at hbs
      by_cases hs : s = 429
      · simp only [hs, if_pos rfl] at hbs
        rcases List.mem_cons.1 hbs with h1 | h2
        · exact h1
        · exact ih (attempt + 1) bs h2
      · simp only [if_neg hs] at hbs
        simpa using hbs

theorem runTranslation_exhaust (strings : List (String × String))
    (responses : Nat → DLResponse) :
    ∀ t attempt b, (∀ i, i < t → ∃ bi, responses (attempt + i) = .err 429 bi) →
      responses (attempt + t) = .err 429 b →
      runTranslation strings responses attempt t
        = (List.replicate (t + 1) strings, Except.error (429, b)) := by
  intro t
  induction t with
  | zero =>
    intro attempt b _ hfin
    rw [Nat.add_zero] at hfin
    unfold runTranslation
    rw [hfin]
    simp
  | succ t ih =>
    intro attempt b hpre hfin
    obtain ⟨b0, hb0⟩ := hpre 0 (Nat.succ_pos t)
    rw [Nat.add_zero] at hb0
    unfold runTranslation
    rw [hb0]
    simp only [if_pos rfl]
    have hrec := ih (attempt + 1) b
      (fun i hi => by
        have h1 := hpre (i + 1) (Nat.succ_lt_succ hi)
        rwa [show attempt + (i + 1) = attempt + 1 + i by omega] at h1)
      (by rwa [show attempt + 1 + t = attempt + (t + 1) by omega])
    rw [hrec]
    simp [List.replicate_succ]

theorem runTranslation_recover (strings : List (String × String))
    (responses : Nat → DLResponse) :
    ∀ j t attempt texts, j ≤ t →
      (∀ i, i < j → ∃ bi, responses (attempt + i) = .err 429 bi) →
      responses (attempt + j) = .ok texts →
      runTranslation strings responses attempt t
        = (List.replicate (j + 1) strings, Except.ok texts) := by
  intro j
  induction j with
  | zero =>
    intro t attempt texts _ _ hok
    rw [Nat.add_zero] at hok
    unfold runTranslation
    rw [hok]
    simp
  | succ j ih =>
    intro t attempt texts hj hpre hok
    obtain ⟨b0, hb0⟩ := hpre 0 (Nat.succ_pos j)
    rw [Nat.add_zero] at hb0
    cases t with
    | zero => omega
    | succ t =>
      unfold runTranslation
      rw [hb0]
      simp only [if_pos rfl]
      have hrec := ih t (attempt + 1) texts (Nat.le_of_succ_le_succ hj)
        (fun i hi => by
          have h1 := hpre (i + 1) (Nat.succ_lt_succ hi)
          rwa [show attempt + (i + 1) = attempt + 1 + i by omega] at h1)
        (by rwa [show attempt + 1 + j = attempt + (j + 1) by omega])
      rw [hrec]
      simp [List.replicate_succ]

/-- C6: every call of one runTranslation invocation submits exactly the same
batch; a failure with a status other than 429 raises an error carrying the
status and body at once; six consecutive 429 responses (the initial call
plus the five-retry budget) end in an error carrying 429 and the final
body; and a success on attempt j with at most five preceding 429 responses
is recovered, returning the translations after j retried submissions of
the identical batch. -/
theorem deepl_retry_policy (strings : List (String × String))
    (responses : Nat → DLResponse) :
    (∀ attempt t bs, bs ∈ (runTranslation strings responses attempt t).1 →
      bs = strings)
  ∧ (∀ attempt t s b, responses attempt = .err s b → s ≠ 429 →
      runTranslation strings responses attempt t = ([strings], Except.error (s, b)))
  ∧ (∀ b, (∀ i, i < 5 → ∃ bi, responses i = .err 429 bi) →
      responses 5 = .err 429 b →
      runTranslation strings responses 0 5
        = (List.replicate 6 strings, Except.error (429, b)))
  ∧ (∀ j texts, j ≤ 5 → (∀ i, i < j → ∃ bi, responses i = .err 429 bi) →
      responses j = .ok texts →
      runTranslation strings responses 0 5
        = (List.replicate (j + 1) strings, Except.ok texts)) := by
  refine ⟨fun attempt t => runTranslation_batches strings responses t attempt,
    ?_, ?_, ?_⟩
  · intro attempt t s b hr hs
    unfold runTranslation
    rw [hr]
    simp [hs]
  · intro b hpre hfin
    have h := runTranslation_exhaust strings responses 5 0 b
      (fun i hi => by simpa using hpre i hi) (by simpa using hfin)
    simpa using h
  · intro j texts hj hpre hok
    exact runTranslation_recover strings responses j 5 0 texts hj
      (fun i hi => by simpa using hpre i hi) (by simpa using hok)

/-- Witness for C6: recovery after two rate limits, immediate fatal error on
a 500, and exhaustion after six rate-limited attempts. -/
theorem deepl_retry_policy_witness :
    runTranslation [("k", "hello")] respEx 0 5
      = (List.replicate 3 [("k", "hello")], Except.ok ["hallo"])
  ∧ runTranslation [("k", "hello")] respEx2 0 5
      = ([[("k", "hello")]], Except.error (500, "server error"))
  ∧ runTranslation [("k", "hello")] respEx3 0 5
      = (List.replicate 6 [("k", "hello")], Except.error (429, "rate limited")) :=
  ⟨(deepl_retry_policy [("k", "hello")] respEx).2.2.2 2 ["hallo"] (by omega)
     (fun i hi => ⟨"rate limited", by simp [respEx, hi]⟩) rfl,
   (deepl_retry_policy [("k", "hello")] respEx2).2.1 0 5 500 "server error" rfl
     (by decide),
   (deepl_retry_policy [("k", "hello")] respEx3).2.2.1 "rate limited"
     (fun i _ => ⟨"rate limited", rfl⟩) rfl⟩

/-! ## Case handling of supportsLanguage -/

theorem toLowerChar_idem (c : Char) : toLowerChar (toLowerChar c) = toLowerChar c := by
  cases hf : lowerPairs.find? (fun p => p.1 == c) with
  | none =>
    have h1 : toLowerChar c = c := by simp [toLowerChar, hf]
    rw [h1]
    exact h1
  | some p =>
    have hmem : p ∈ lowerPairs := List.mem_of_find?_eq_some hf
    have h1 : toLowerChar c = p.2 := by simp [toLowerChar, hf]
    rw [h1]
    have hnone : lowerPairs.find? (fun q => q.1 == p.2) = none := by
      apply List.find?_eq_none.mpr
      intro q hq
      have key : ∀ p ∈ lowerPairs, ∀ q ∈ lowerPairs, ¬(q.1 == p.2) = true := by decide
      exact key p hmem q hq
    simp [toLowerChar, hnone]

theorem toLowerStr_idem (s : String) : toLowerStr (toLowerStr s) = toLowerStr s := by
  unfold toLowerStr
  apply congrArg String.mk
  show ((s.data.map toLowerChar).map toLowerChar) = s.data.map toLowerChar
  rw [List.map_map]
  exact List.map_eq_map_iff.mpr (fun a _ => toLowerChar_idem a)

/-- C10: for each provider service whose code is in the repository, the
supportsLanguage test gives the same answer on a language code and on its
lowercased form: DeepL (serving both the deepl and deepl-free entries),
GoogleTranslate and AmazonTranslate lowercase the argument before the
membership test, and the OpenAI implementation is constantly true. -/
theorem supports_language_case_insensitive (supported : List String)
    (language : String) :
    deeplSupportsLanguage supported language
      = deeplSupportsLanguage supported (toLowerStr language)
  ∧ googleSupportsLanguage supported language
      = googleSupportsLanguage supported (toLowerStr language)
  ∧ amazonSupportsLanguage language = amazonSupportsLanguage (toLowerStr language)
  ∧ openaiSupportsLanguage language = openaiSupportsLanguage (toLowerStr language) := by
  unfold deeplSupportsLanguage googleSupportsLanguage amazonSupportsLanguage
    openaiSupportsLanguage
  rw [toLowerStr_idem]
  exact ⟨rfl, rfl, rfl, rfl⟩

end JsonAutotranslate
